import Mathlib

/-!
# Verification of the byoetf holdings / performance pipeline

A shallow embedding of the three exported functions of the repository's tool
module (`generateEtfHoldingsTool.execute`, `calculateEtfPerformanceTool.execute`
and `parseAlphaVantageResponse`), together with theorems settling the
specification claims about them.

Modelling conventions:

* JavaScript strings are modelled as their sequences of UTF-16 code units,
  `JStr := List ℕ` (every string handled by this program is ASCII, where code
  units and code points agree).  JavaScript relational comparison of strings
  (`<`, `>=`, and `localeCompare` on ISO dates) is code-unit lexicographic
  comparison, modelled by `jstrLtB`.  The helper `codes` converts a Lean
  string literal to its code-unit list so that statements stay readable.
* JavaScript numbers are modelled as exact rationals `ℚ`.  `toFixed(2)`
  followed by `parseFloat` is `round2`; the tie is resolved upward, as the
  `toFixed` specification demands ("pick the larger n").  `NaN` is modelled
  as `none` in `Option ℚ` at the points where the source can produce it
  (`parseFloat` of a non-numeric value).
* JavaScript loops (`for`/`forEach`/`reduce`) become structural recursions,
  `Map` lookup becomes a function over the entry list with the JS `Map`
  constructor's last-entry-wins behaviour, and `Set` insertion-order
  deduplication becomes `collectDates`.
* The `try`/`catch` wrappers in the source are modelled by a total function:
  every operation in the `try` blocks is total in the embedding, so the
  `catch` branches (which would produce the `error` result) are unreachable;
  `PerfResult.err` exists to make that observable in statements.
-/

/-- A JavaScript string, as its list of UTF-16 code units. -/
abbrev JStr := List ℕ

/-- Code-unit list of a Lean string literal (all inputs here are ASCII). -/
def codes (s : String) : JStr := s.data.map Char.toNat

/-- Membership of a code unit in the regex class `[A-Z0-9.-]`. -/
def isSymbolCode (c : ℕ) : Prop := (65 ≤ c ∧ c ≤ 90) ∨ (48 ≤ c ∧ c ≤ 57) ∨ c = 46 ∨ c = 45

instance (c : ℕ) : Decidable (isSymbolCode c) := by unfold isSymbolCode; infer_instance

/-- Membership of a code unit in the regex class `\d`. -/
def isDigitCode (c : ℕ) : Prop := 48 ≤ c ∧ c ≤ 57

instance (c : ℕ) : Decidable (isDigitCode c) := by unfold isDigitCode; infer_instance

/-- JavaScript whitespace (`\s`, and the characters `trim` removes), restricted
to the ASCII range: space, tab, line feed, vertical tab, form feed, carriage
return.  Unicode whitespace beyond ASCII is not modelled; no input in this
development contains it. -/
def isSpaceCode (c : ℕ) : Prop := c = 32 ∨ c = 9 ∨ c = 10 ∨ c = 11 ∨ c = 12 ∨ c = 13

instance (c : ℕ) : Decidable (isSpaceCode c) := by unfold isSpaceCode; infer_instance

/-- Drop leading JavaScript whitespace. -/
@[simp] def dropLeadingSpaces : JStr → JStr
  | [] => []
  | c :: cs => if isSpaceCode c then dropLeadingSpaces cs else c :: cs

/-- JavaScript `String.prototype.trim`: strip whitespace from both ends. -/
def jsTrim (s : JStr) : JStr :=
  ((dropLeadingSpaces ((dropLeadingSpaces s).reverse)).reverse)

/-- JavaScript `String.prototype.split("\n")` (code unit 10). -/
@[simp] def splitOnNl : JStr → List JStr
  | [] => [[]]
  | c :: cs =>
    if c = 10 then [] :: splitOnNl cs
    else
      match splitOnNl cs with
      | [] => [[c]]
      | g :: gs => (c :: g) :: gs

/-- JavaScript `toUpperCase` on one ASCII code unit. -/
@[simp] def toUpperCode (c : ℕ) : ℕ := if 97 ≤ c ∧ c ≤ 122 then c - 32 else c

/-- JavaScript `String.prototype.toUpperCase` (ASCII range). -/
def jsToUpper (s : JStr) : JStr := s.map toUpperCode

/-- JavaScript `toLowerCase` on one ASCII code unit. -/
@[simp] def toLowerCode (c : ℕ) : ℕ := if 65 ≤ c ∧ c ≤ 90 then c + 32 else c

/-- JavaScript `String.prototype.toLowerCase` (ASCII range). -/
def jsToLower (s : JStr) : JStr := s.map toLowerCode

/-- Does `p` occur as a prefix of `s`?  (Helper for `includesB`.) -/
@[simp] def isPrefixB : JStr → JStr → Bool
  | [], _ => true
  | _ :: _, [] => false
  | p :: ps, c :: cs => if p = c then isPrefixB ps cs else false

/-- JavaScript `String.prototype.includes`. -/
@[simp] def includesB : JStr → JStr → Bool
  | [], pat => isPrefixB pat []
  | c :: cs, pat => if isPrefixB pat (c :: cs) then true else includesB cs pat

/-- JavaScript string relational comparison `a < b`: lexicographic on code
units. -/
@[simp] def jstrLtB : JStr → JStr → Bool
  | [], [] => false
  | [], _ :: _ => true
  | _ :: _, [] => false
  | a :: as, b :: bs => if a < b then true else if b < a then false else jstrLtB as bs

/-- Numeric value of a digit run (most significant first), as the JS number
obtained by `parseFloat` on those digits. -/
def digitsValFrom (acc : ℕ) : JStr → ℕ
  | [] => acc
  | c :: cs => digitsValFrom (10 * acc + (c - 48)) cs

@[simp] theorem digitsValFrom_nil (acc : ℕ) : digitsValFrom acc [] = acc := rfl

@[simp] theorem digitsValFrom_cons (acc c : ℕ) (cs : JStr) :
    digitsValFrom acc (c :: cs) = digitsValFrom (10 * acc + (c - 48)) cs := rfl

def digitsVal (s : JStr) : ℕ := digitsValFrom 0 s

/-- Split off the maximal leading run of decimal digits: `(run, rest)`. -/
@[simp] def takeDigitsPair : JStr → JStr × JStr
  | [] => ([], [])
  | c :: cs =>
    if isDigitCode c then
      ((c :: (takeDigitsPair cs).1), (takeDigitsPair cs).2)
    else ([], c :: cs)

/-- Split off the maximal leading run of `[A-Z0-9.-]` code units. -/
@[simp] def takeSymbolPair : JStr → JStr × JStr
  | [] => ([], [])
  | c :: cs =>
    if isSymbolCode c then
      ((c :: (takeSymbolPair cs).1), (takeSymbolPair cs).2)
    else ([], c :: cs)

/-- JavaScript `parseFloat` on an unsigned decimal numeral
(`digits`, `digits.digits`, `.digits`, or `digits.`); `none` is `NaN`. -/
def parseUnsignedDec (cs : JStr) : Option ℚ :=
  match takeDigitsPair cs with
  | ([], rest) =>
    match rest with
    | 46 :: r2 =>
      match takeDigitsPair r2 with
      | ([], _) => none
      | (fp, _) => some ((digitsVal fp : ℚ) / 10 ^ fp.length)
    | _ => none
  | (ip, rest) =>
    match rest with
    | 46 :: r2 =>
      some ((digitsVal ip : ℚ) + (digitsVal (takeDigitsPair r2).1 : ℚ)
        / 10 ^ (takeDigitsPair r2).1.length)
    | _ => some (digitsVal ip)

/-- JavaScript `parseFloat` on a string: optional leading whitespace and sign,
then a decimal numeral; `none` is `NaN`.  (Exponent notation and `Infinity`
are not modelled; no input here uses them.) -/
def parseFloatDecimal (s : JStr) : Option ℚ :=
  match dropLeadingSpaces s with
  | 45 :: cs => (parseUnsignedDec cs).map (fun q => -q)
  | 43 :: cs => parseUnsignedDec cs
  | cs => parseUnsignedDec cs

/-! ## Response Parser (`generateEtfHoldingsTool`, regex extraction loop)

The regex is `/([A-Z0-9\.\-]+):\s*(\d+(?:\.\d+)?)\s*%?/`, applied by
`line.trim().match(...)` — an unanchored leftmost search.  Because `:` is not
in the symbol class and a digit is not consumed by `\s*`, the greedy runs
never backtrack, so the match attempt at one start position is the direct
scan `matchHoldingAt`, and the leftmost search is `scanHolding`. -/

/-- One regex match attempt starting exactly at the head of `cs`; returns the
two capture groups (symbol run, numeric literal) on success.  The trailing
`\s*%?` always matches and captures nothing, so it needs no code. -/
def matchHoldingAt (cs : JStr) : Option (JStr × JStr) :=
  match takeSymbolPair cs with
  | ([], _) => none
  | (sym, rest) =>
    match rest with
    | 58 :: r1 =>
      match takeDigitsPair (dropLeadingSpaces r1) with
      | ([], _) => none
      | (ip, r3) =>
        match r3 with
        | 46 :: r4 =>
          match takeDigitsPair r4 with
          | ([], _) => some (sym, ip)
          | (fp, _) => some (sym, ip ++ 46 :: fp)
        | _ => some (sym, ip)
    | _ => none

/-- Leftmost regex search: try a match at every start position. -/
@[simp] def scanHolding : JStr → Option (JStr × JStr)
  | [] => none
  | c :: cs =>
    match matchHoldingAt (c :: cs) with
    | some r => some r
    | none => scanHolding cs

/-- A holding as produced by the pipeline.  The zod schema's optional
`country` field is never populated by the source and is omitted. -/
structure Holding where
  symbol : JStr
  name : JStr
  weight : ℚ
deriving DecidableEq

/-- The loop body for one line of LLM output: trim, match the regex,
upper-case capture group 1, `parseFloat` capture group 2, and keep the pair
unless the weight is `NaN`.  (Group 1 and group 2 are non-empty by the regex,
so the source's truthiness tests on `match[1]` and `match[2]` always pass;
group 2 is a decimal numeral, so the `isNaN` guard in fact never fires.) -/
def parseHoldingLine (line : JStr) : Option Holding :=
  match scanHolding (jsTrim line) with
  | none => none
  | some (sym, num) =>
    match parseFloatDecimal num with
    | none => none
    | some w => some { symbol := jsToUpper sym, name := jsToUpper sym, weight := w }

/-- The parser's line loop (`for (const line of lines)` with `push`). -/
@[simp] def collectHoldings : List JStr → List Holding
  | [] => []
  | line :: rest =>
    match parseHoldingLine line with
    | some h => h :: collectHoldings rest
    | none => collectHoldings rest

/-- The Response Parser: `text.trim().split("\n")`, then the line loop. -/
def parseHoldings (text : JStr) : List Holding :=
  collectHoldings (splitOnNl (jsTrim text))

/-! ## Weight Normalizer (`generateEtfHoldingsTool`, lines 101-110) -/

/-- `holdings.reduce((sum, h) => sum + h.weight, 0)`, with its left-fold
accumulator. -/
def totalWeightFrom (acc : ℚ) : List Holding → ℚ
  | [] => acc
  | h :: t => totalWeightFrom (acc + h.weight) t

@[simp] theorem totalWeightFrom_nil (acc : ℚ) : totalWeightFrom acc [] = acc := rfl

@[simp] theorem totalWeightFrom_cons (acc : ℚ) (h : Holding) (t : List Holding) :
    totalWeightFrom acc (h :: t) = totalWeightFrom (acc + h.weight) t := rfl

def totalWeight (hs : List Holding) : ℚ := totalWeightFrom 0 hs

/-- `parseFloat(x.toFixed(2))` on an exact rational: round to 2 decimal
places, ties upward (the `toFixed` spec picks the larger candidate). -/
def round2 (q : ℚ) : ℚ := (⌊q * 100 + 1 / 2⌋ : ℤ) / 100

/-- The Weight Normalizer: rescale to sum 100 and round each weight to 2
decimals when the total is positive, otherwise return the list unchanged. -/
def normalizeHoldings (hs : List Holding) : List Holding :=
  if 0 < totalWeight hs then
    hs.map (fun h => { h with weight := round2 (h.weight / totalWeight hs * 100) })
  else hs

/-! ## ETF name generation (`generateEtfName`) -/

/-- `generateEtfName(query)`: keyword classification of the query into a
region prefix and a sector focus, then `prefix ++ "-" ++ focus ++ " ETF"`. -/
def generateEtfName (query : JStr) : JStr :=
  let q := jsToLower query
  let focus :=
    if includesB q (codes ("pharma")) then codes ("PHARMA")
    else if includesB q (codes ("tech")) then codes ("TECH")
    else if includesB q (codes ("energy")) then codes ("ENERGY")
    else if includesB q (codes ("finance")) then codes ("FINANCE")
    else codes ("GENERAL")
  let pre :=
    if includesB q (codes ("non-us")) then codes ("NON-US")
    else if includesB q (codes ("europe")) then codes ("EU")
    else if includesB q (codes ("asia")) then codes ("ASIA")
    else if includesB q (codes ("emerging")) then codes ("EM")
    else codes ("GLOBAL")
  pre ++ codes ("-") ++ focus ++ codes (" ETF")

/-- Result record of the Holdings Generator. -/
structure HoldingsResult where
  holdings : List Holding
  etfName : JStr
deriving DecidableEq

/-- `generateEtfHoldingsTool.execute` after the external completion call: the
LLM's raw text is the `llmText` argument; parse, then either signal the empty
soft-failure with the `"-EMPTY"` suffix or normalize the weights. -/
def generateEtfHoldings (query llmText : JStr) : HoldingsResult :=
  if parseHoldings llmText = [] then
    { holdings := [], etfName := generateEtfName query ++ codes ("-EMPTY") }
  else
    { holdings := normalizeHoldings (parseHoldings llmText), etfName := generateEtfName query }

/-! ## Performance Aggregator (`calculateEtfPerformanceTool`) -/

/-- A price point `{date, price}`. -/
structure PricePoint where
  date : JStr
  price : ℚ
deriving DecidableEq

/-- A per-symbol price history `{symbol, prices}`. -/
structure PriceHistory where
  symbol : JStr
  prices : List PricePoint
deriving DecidableEq

/-- One point `{date, value}` of the emitted performance series. -/
structure PerformancePoint where
  date : JStr
  value : ℚ
deriving DecidableEq

/-- Result of the aggregator: either `{etfPerformance}` or (from the `catch`
branch, unreachable in the total embedding) `{error}`. -/
inductive PerfResult where
  | ok (etfPerformance : List PerformancePoint)
  | err (message : JStr)
deriving DecidableEq

/-- `new Map(priceHistories.map(h => [h.symbol, h.prices])).get(sym)`:
with duplicate symbols, the JS `Map` constructor keeps the last entry. -/
def priceMapGet : List PriceHistory → JStr → Option (List PricePoint)
  | [], _ => none
  | h :: t, sym =>
    match priceMapGet t sym with
    | some ps => some ps
    | none => if h.symbol = sym then some h.prices else none

@[simp] theorem priceMapGet_nil (sym : JStr) : priceMapGet [] sym = none := rfl

@[simp] theorem priceMapGet_cons (h : PriceHistory) (t : List PriceHistory) (sym : JStr) :
    priceMapGet (h :: t) sym =
      match priceMapGet t sym with
      | some ps => some ps
      | none => if h.symbol = sym then some h.prices else none := rfl

/-- Inner loop of the date-set construction: add each price's date to the
`Set` (insertion order, first occurrence kept). -/
def collectDatesPrices (acc : List JStr) : List PricePoint → List JStr
  | [] => acc
  | p :: ps =>
    collectDatesPrices (if acc.contains p.date then acc else acc ++ [p.date]) ps

@[simp] theorem collectDatesPrices_nil (acc : List JStr) : collectDatesPrices acc [] = acc := rfl

@[simp] theorem collectDatesPrices_cons (acc : List JStr) (p : PricePoint) (ps : List PricePoint) :
    collectDatesPrices acc (p :: ps) =
      collectDatesPrices (if acc.contains p.date then acc else acc ++ [p.date]) ps := rfl

/-- Outer loop of the date-set construction over all histories. -/
def collectDates (acc : List JStr) : List PriceHistory → List JStr
  | [] => acc
  | h :: hs => collectDates (collectDatesPrices acc h.prices) hs

@[simp] theorem collectDates_nil (acc : List JStr) : collectDates acc [] = acc := rfl

@[simp] theorem collectDates_cons (acc : List JStr) (h : PriceHistory) (hs : List PriceHistory) :
    collectDates acc (h :: hs) = collectDates (collectDatesPrices acc h.prices) hs := rfl

/-- The distinct dates of all histories, in insertion order. -/
def allDates (phs : List PriceHistory) : List JStr := collectDates [] phs

/-- Insert into an ascending list (the effect of the default string sort on
one element; dates are distinct here, so stability is irrelevant). -/
@[simp] def insertAscDate (d : JStr) : List JStr → List JStr
  | [] => [d]
  | x :: xs => if jstrLtB d x then d :: x :: xs else x :: insertAscDate d xs

/-- `Array.from(allDates).sort()`: default lexicographic string sort,
modelled by insertion sort. -/
@[simp] def sortDates : List JStr → List JStr
  | [] => []
  | d :: ds => insertAscDate d (sortDates ds)

/-- The sorted distinct date set of the histories. -/
def sortedAllDates (phs : List PriceHistory) : List JStr := sortDates (allDates phs)

/-- The `commonStartDate` loop: starting from the sorted set's minimum,
advance to any holding's first recorded date that is later. -/
def commonStartFold (phs : List PriceHistory) (cur : JStr) : List Holding → JStr
  | [] => cur
  | h :: hs =>
    match priceMapGet phs h.symbol with
    | some (p :: _) =>
      commonStartFold phs (if jstrLtB cur p.date then p.date else cur) hs
    | some [] => commonStartFold phs cur hs
    | none => commonStartFold phs cur hs

@[simp] theorem commonStartFold_nil (phs : List PriceHistory) (cur : JStr) :
    commonStartFold phs cur [] = cur := rfl

@[simp] theorem commonStartFold_cons (phs : List PriceHistory) (cur : JStr) (h : Holding)
    (hs : List Holding) :
    commonStartFold phs cur (h :: hs) =
      match priceMapGet phs h.symbol with
      | some (p :: _) =>
        commonStartFold phs (if jstrLtB cur p.date then p.date else cur) hs
      | some [] => commonStartFold phs cur hs
      | none => commonStartFold phs cur hs := rfl

/-- `sortedDates.filter(date => date >= commonStartDate)`; JS `>=` on strings
is the negation of `<`. -/
@[simp] def filterFromDate (cs : JStr) : List JStr → List JStr
  | [] => []
  | d :: ds => if jstrLtB d cs then filterFromDate cs ds else d :: filterFromDate cs ds

/-- `history.find(p => p.date === d)`. -/
@[simp] def findPrice (d : JStr) : List PricePoint → Option PricePoint
  | [] => none
  | p :: ps => if p.date = d then some p else findPrice d ps

/-- The entry the `initialValues` map holds for `sym`: the price at the first
filtered date, provided it exists and is positive.  The map is keyed by the
holding's symbol with a value depending only on the symbol, so the lookup is
this function of the symbol. -/
def initialValue (phs : List PriceHistory) (firstDate sym : JStr) : Option ℚ :=
  match priceMapGet phs sym with
  | none => none
  | some ps =>
    match findPrice firstDate ps with
    | none => none
    | some p => if 0 < p.price then some p.price else none

/-- The per-date inner loop over holdings, accumulating `weightedValue` and
`totalWeightForDate`.  A holding contributes iff its symbol has a recorded
(positive) initial price and a price point for this exact date. -/
def dateAccum (phs : List PriceHistory) (firstDate d : JStr) (wv tw : ℚ) :
    List Holding → ℚ × ℚ
  | [] => (wv, tw)
  | h :: hs =>
    match initialValue phs firstDate h.symbol with
    | some ip =>
      match priceMapGet phs h.symbol with
      | some ps =>
        match findPrice d ps with
        | some pp =>
          dateAccum phs firstDate d (wv + pp.price / ip * 100 * (h.weight / 100))
            (tw + h.weight / 100) hs
        | none => dateAccum phs firstDate d wv tw hs
      | none => dateAccum phs firstDate d wv tw hs
    | none => dateAccum phs firstDate d wv tw hs

@[simp] theorem dateAccum_nil (phs : List PriceHistory) (firstDate d : JStr) (wv tw : ℚ) :
    dateAccum phs firstDate d wv tw [] = (wv, tw) := rfl

@[simp] theorem dateAccum_cons (phs : List PriceHistory) (firstDate d : JStr) (wv tw : ℚ)
    (h : Holding) (hs : List Holding) :
    dateAccum phs firstDate d wv tw (h :: hs) =
      match initialValue phs firstDate h.symbol with
      | some ip =>
        match priceMapGet phs h.symbol with
        | some ps =>
          match findPrice d ps with
          | some pp =>
            dateAccum phs firstDate d (wv + pp.price / ip * 100 * (h.weight / 100))
              (tw + h.weight / 100) hs
          | none => dateAccum phs firstDate d wv tw hs
        | none => dateAccum phs firstDate d wv tw hs
      | none => dateAccum phs firstDate d wv tw hs := rfl

/-- Does this holding contribute to the value at date `d` (recorded positive
initial price, and a price point for exactly `d`)? -/
def contributes (phs : List PriceHistory) (firstDate d : JStr) (h : Holding) : Bool :=
  (initialValue phs firstDate h.symbol).isSome &&
    ((priceMapGet phs h.symbol).bind (findPrice d)).isSome

/-- The emitted value for one date: the weight-normalized indexed value, or
the neutral index 100 when no holding has data, rounded to 2 decimals. -/
def dateValue (holdings : List Holding) (phs : List PriceHistory) (firstDate d : JStr) : ℚ :=
  round2
    (if 0 < (dateAccum phs firstDate d 0 0 holdings).2 then
      (dateAccum phs firstDate d 0 0 holdings).1 / (dateAccum phs firstDate d 0 0 holdings).2
    else 100)

/-- `sortedDates.map(date => ({date, value}))`. -/
@[simp] def mapDates (holdings : List Holding) (phs : List PriceHistory) (firstDate : JStr) :
    List JStr → List PerformancePoint
  | [] => []
  | d :: ds =>
    { date := d, value := dateValue holdings phs firstDate d } ::
      mapDates holdings phs firstDate ds

/-- `calculateEtfPerformanceTool.execute`.  The embedding is total, so the
`catch` branch producing `{error: ...}` is unreachable; every path returns
`PerfResult.ok`. -/
def calculateEtfPerformance (holdings : List Holding) (phs : List PriceHistory) : PerfResult :=
  if phs = [] ∨ holdings = [] then .ok []
  else
    match sortedAllDates phs with
    | [] => .ok []
    | d0 :: rest =>
      match filterFromDate (commonStartFold phs d0 holdings) (d0 :: rest) with
      | [] => .ok []
      | f0 :: fs => .ok (mapDates holdings phs f0 (f0 :: fs))

/-- The dates of a performance series. -/
@[simp] def perfDates : List PerformancePoint → List JStr
  | [] => []
  | p :: ps => p.date :: perfDates ps

/-! ## Price History Adapter (`parseAlphaVantageResponse`) -/

/-- A JavaScript/JSON value as far as the adapter inspects it. -/
inductive JValue where
  | jnull
  | jbool (b : Bool)
  | jnum (q : ℚ)
  | jstr (s : JStr)
  | jarr (elems : List JValue)
  | jobj (fields : List (JStr × JValue))

/-- JavaScript truthiness of a value (the `!data` / `!timeSeriesData` tests).
`jnum` cannot carry `NaN` in the embedding; no adapter input is a number. -/
def jsTruthy : JValue → Bool
  | .jnull => false
  | .jbool b => b
  | .jnum q => if q = 0 then false else true
  | .jstr s => if s = [] then false else true
  | .jarr _ => true
  | .jobj _ => true

/-- `typeof v === "object"` (true for objects, arrays and `null`). -/
def isTypeofObject : JValue → Bool
  | .jnull => true
  | .jarr _ => true
  | .jobj _ => true
  | _ => false

/-- First field with the given key (JS objects cannot carry duplicate keys). -/
@[simp] def findField : List (JStr × JValue) → JStr → Option JValue
  | [], _ => none
  | f :: fs, k => if f.1 = k then some f.2 else findField fs k

/-- Property access `v[k]` as far as the adapter exercises it: a field of an
object, `undefined` (`none`) otherwise.  (None of the accessed keys collides
with an array index or a string/array built-in property.) -/
def getProp : JValue → JStr → Option JValue
  | .jobj fields, k => findField fields k
  | _, _ => none

/-- String coercion of a property value used as a computed object key.  Exact
for strings — the only shape the provider's metadata carries; the remaining
constructors use a simplified rendering (number formatting and array joining
are not modelled). -/
def jsToKeyString : JValue → JStr
  | .jstr s => s
  | .jbool true => codes ("true")
  | .jbool false => codes ("false")
  | .jnull => codes ("null")
  | .jnum _ => []
  | .jarr _ => []
  | .jobj _ => codes ("[object Object]")

/-- `metaData && metaData["2. Symbol"] ? metaData["2. Symbol"] : "UNKNOWN"`:
the ticker taken from the metadata block, `"UNKNOWN"` when the block or the
field is missing or falsy. -/
def tickerOf (data : JValue) : JStr :=
  match getProp data (codes ("Meta Data")) with
  | none => codes ("UNKNOWN")
  | some md =>
    match getProp md (codes ("2. Symbol")) with
    | none => codes ("UNKNOWN")
    | some v => if jsTruthy v then jsToKeyString v else codes ("UNKNOWN")

/-- One parsed day of price data; `none` fields are `NaN` from `parseFloat`. -/
structure DailyPrice where
  date : JStr
  open' : Option ℚ
  high : Option ℚ
  low : Option ℚ
  close : Option ℚ
  volume : Option ℚ
deriving DecidableEq

/-- `parseFloat` applied to a field value: numbers parse to themselves,
strings through the decimal parser, everything else (including a missing
field, i.e. `undefined`) is `NaN`. -/
def jsParseFloat : JValue → Option ℚ
  | .jnum q => some q
  | .jstr s => parseFloatDecimal s
  | _ => none

/-- `parseFloat(dayData[k])`. -/
def parseField (day : JValue) (k : JStr) : Option ℚ :=
  match getProp day k with
  | some v => jsParseFloat v
  | none => none

/-- The record pushed for one date key. -/
def mkDailyPrice (d : JStr) (day : JValue) : DailyPrice :=
  { date := d
    open' := parseField day (codes ("1. open"))
    high := parseField day (codes ("2. high"))
    low := parseField day (codes ("3. low"))
    close := parseField day (codes ("4. close"))
    volume := parseField day (codes ("5. volume")) }

/-- Decimal rendering of an array index (reversed digit list helper). -/
def natDigitsRev : ℕ → JStr
  | 0 => []
  | n + 1 => (48 + (n + 1) % 10) :: natDigitsRev ((n + 1) / 10)
decreasing_by exact Nat.div_lt_self (Nat.succ_pos n) (by omega)

/-- Decimal rendering of an array index. -/
def natToCodes (n : ℕ) : JStr := if n = 0 then [48] else (natDigitsRev n).reverse

/-- Array entries as `for...in` sees them: ascending index keys. -/
def enumFields (i : ℕ) : List JValue → List (JStr × JValue)
  | [] => []
  | v :: vs => (natToCodes i, v) :: enumFields (i + 1) vs

/-- The own enumerable entries `for...in` iterates (the
`hasOwnProperty` guard in the loop is always true for them): an object's
fields in insertion order, an array's elements under ascending index keys.
Only values passing the `typeof === "object"` and truthiness guards reach
this point. -/
def ownEnumerable : JValue → List (JStr × JValue)
  | .jobj fields => fields
  | .jarr elems => enumFields 0 elems
  | _ => []

/-- The date-entry loop: one `DailyPrice` pushed per enumerated key. -/
@[simp] def buildPrices : List (JStr × JValue) → List DailyPrice
  | [] => []
  | kv :: rest => mkDailyPrice kv.1 kv.2 :: buildPrices rest

/-- `a.date.localeCompare(b.date) < 0` under the default locale on ISO date
strings: code-unit comparison of the dates. -/
def dailyLtB (a b : DailyPrice) : Bool := jstrLtB a.date b.date

/-- Insertion into a list sorted by `lt` (before the first strictly greater
element, so equal elements keep their relative order, as the required-stable
JS sort does). -/
@[simp] def insertByB (lt : α → α → Bool) (a : α) : List α → List α
  | [] => [a]
  | x :: xs => if lt a x then a :: x :: xs else x :: insertByB lt a xs

/-- `Array.prototype.sort(comparator)`: modelled as stable insertion sort. -/
@[simp] def sortByB (lt : α → α → Bool) : List α → List α
  | [] => []
  | x :: xs => insertByB lt x (sortByB lt xs)

/-- `parseAlphaVantageResponse`.  As with the aggregator, every operation in
the `try` block is total in the embedding, so the `catch` branch returning
`{}` is unreachable.  The result is the at-most-one-entry mapping, as its
entry list. -/
def parseAlphaVantageResponse (data : JValue) : List (JStr × List DailyPrice) :=
  if jsTruthy data = false ∨ isTypeofObject data = false then []
  else
    match getProp data (codes ("Time Series (Daily)")) with
    | none => [(tickerOf data, [])]
    | some ts =>
      if jsTruthy ts = false ∨ isTypeofObject ts = false then [(tickerOf data, [])]
      else [(tickerOf data, sortByB dailyLtB (buildPrices (ownEnumerable ts)))]

/-! ## Order facts about code-unit string comparison -/

theorem jstrLtB_irrefl : ∀ a : JStr, jstrLtB a a = false
  | [] => rfl
  | c :: cs => by simp [jstrLtB, jstrLtB_irrefl cs]

theorem jstrLtB_asymm : ∀ {a b : JStr}, jstrLtB a b = true → jstrLtB b a = false
  | [], [], h => by simp at h
  | [], _ :: _, _ => rfl
  | _ :: _, [], h => by simp at h
  | x :: as, y :: bs, h => by
    simp only [jstrLtB] at h ⊢
    by_cases hxy : x < y
    · have hyx : ¬ y < x := by omega
      simp [hyx, hxy]
    · by_cases hyx : y < x
      · simp [hxy, hyx] at h
      · have hx : x = y := by omega
        subst hx
        simp only [lt_self_iff_false, if_false] at h ⊢
        exact jstrLtB_asymm h

theorem jstrLtB_trans : ∀ {a b c : JStr},
    jstrLtB a b = true → jstrLtB b c = true → jstrLtB a c = true
  | [], [], _, h1, _ => by simp at h1
  | [], _ :: _, [], _, h2 => by simp at h2
  | [], _ :: _, _ :: _, _, _ => rfl
  | _ :: _, [], _, h1, _ => by simp at h1
  | _ :: _, _ :: _, [], _, h2 => by simp at h2
  | x :: as, y :: bs, z :: cs, h1, h2 => by
    simp only [jstrLtB] at h1 h2 ⊢
    by_cases hxy : x < y
    · by_cases hyz : y < z
      · simp [show x < z from hxy.trans hyz]
      · by_cases hzy : z < y
        · simp [hyz, hzy] at h2
        · simp [show x < z by omega]
    · by_cases hyx : y < x
      · simp [hxy, hyx] at h1
      · have hx : x = y := by omega
        subst hx
        simp only [lt_self_iff_false, if_false] at h1
        by_cases hyz : x < z
        · simp [hyz]
        · by_cases hzy : z < x
          · simp [hyz, hzy] at h2
          · have hz : x = z := by omega
            subst hz
            simp only [lt_self_iff_false, if_false] at h2 ⊢
            exact jstrLtB_trans h1 h2

theorem jstrLtB_connex : ∀ {a b : JStr},
    jstrLtB a b = false → jstrLtB b a = false → a = b
  | [], [], _, _ => rfl
  | [], _ :: _, h1, _ => by simp at h1
  | _ :: _, [], _, h2 => by simp at h2
  | x :: as, y :: bs, h1, h2 => by
    simp only [jstrLtB] at h1 h2
    by_cases hxy : x < y
    · simp [hxy] at h1
    · by_cases hyx : y < x
      · simp [hyx, hxy] at h2
      · have hx : x = y := by omega
        subst hx
        simp only [lt_self_iff_false, if_false] at h1 h2
        rw [jstrLtB_connex h1 h2]

/-- Transitivity of the non-strict comparison `¬(· < ·)`. -/
theorem jstrLtB_neg_trans {a b c : JStr}
    (h1 : jstrLtB b a = false) (h2 : jstrLtB c b = false) : jstrLtB c a = false := by
  cases hca : jstrLtB c a with
  | false => rfl
  | true =>
    cases hbc : jstrLtB b c with
    | true => exact absurd (jstrLtB_trans hbc hca) (by simp [h1])
    | false =>
      have hb : b = c := jstrLtB_connex hbc h2
      subst hb
      simp [hca] at h1

/-! ## Sorting facts -/

theorem insertByB_perm (lt : α → α → Bool) (a : α) :
    ∀ l : List α, List.Perm (insertByB lt a l) (a :: l)
  | [] => List.Perm.refl _
  | x :: xs => by
    simp only [insertByB]
    by_cases h : lt a x = true
    · simp [h]
    · simp only [h, if_false]
      exact ((insertByB_perm lt a xs).cons x).trans (List.Perm.swap a x xs)

theorem sortByB_perm (lt : α → α → Bool) : ∀ l : List α, List.Perm (sortByB lt l) l
  | [] => List.Perm.refl _
  | x :: xs =>
    (insertByB_perm lt x (sortByB lt xs)).trans ((sortByB_perm lt xs).cons x)

theorem insertByB_pairwise {lt : α → α → Bool}
    (hasym : ∀ a b, lt a b = true → lt b a = false)
    (htrans : ∀ a b c, lt a b = true → lt b c = true → lt a c = true)
    {a : α} {l : List α} (hl : l.Pairwise (fun x y => lt y x = false)) :
    (insertByB lt a l).Pairwise (fun x y => lt y x = false) := by
  induction l with
  | nil => simp
  | cons x xs ih =>
    rcases List.pairwise_cons.mp hl with ⟨hx, hxs⟩
    simp only [insertByB]
    by_cases hax : lt a x = true
    · simp only [hax, if_true]
      refine List.pairwise_cons.mpr ⟨?_, hl⟩
      intro y hy
      rcases List.mem_cons.mp hy with rfl | hy
      · exact hasym _ _ hax
      · cases hya : lt y a with
        | false => rfl
        | true => exact absurd (htrans _ _ _ hya hax) (by simp [hx y hy])
    · simp only [hax, if_false]
      refine List.pairwise_cons.mpr ⟨?_, ih hxs⟩
      intro y hy
      rcases List.mem_cons.mp ((insertByB_perm lt a xs).mem_iff.mp hy) with rfl | hy
      · simpa using hax
      · exact hx y hy

theorem sortByB_pairwise {lt : α → α → Bool}
    (hasym : ∀ a b, lt a b = true → lt b a = false)
    (htrans : ∀ a b c, lt a b = true → lt b c = true → lt a c = true) :
    ∀ l : List α, (sortByB lt l).Pairwise (fun x y => lt y x = false)
  | [] => List.Pairwise.nil
  | x :: xs =>
    insertByB_pairwise hasym htrans (sortByB_pairwise hasym htrans xs)

/-! ## Aggregator lemmas -/

theorem calcPerf_eq (holdings : List Holding) (phs : List PriceHistory) (d0 : JStr)
    (rest : List JStr) (hh : holdings ≠ []) (hp : phs ≠ [])
    (hd : sortedAllDates phs = d0 :: rest) :
    calculateEtfPerformance holdings phs =
      match filterFromDate (commonStartFold phs d0 holdings) (d0 :: rest) with
      | [] => .ok []
      | f0 :: fs => .ok (mapDates holdings phs f0 (f0 :: fs)) := by
  unfold calculateEtfPerformance
  rw [if_neg (by simp [hh, hp]), hd]

theorem perfDates_mapDates (holdings : List Holding) (phs : List PriceHistory) (f0 : JStr) :
    ∀ ds : List JStr, perfDates (mapDates holdings phs f0 ds) = ds
  | [] => rfl
  | d :: ds => by simp [perfDates_mapDates holdings phs f0 ds]

theorem mem_mapDates {holdings : List Holding} {phs : List PriceHistory} {f0 : JStr} :
    ∀ {ds : List JStr} {p : PerformancePoint}, p ∈ mapDates holdings phs f0 ds →
      ∃ d ∈ ds, p = { date := d, value := dateValue holdings phs f0 d } := by
  intro ds
  induction ds with
  | nil => intro p hp; simp at hp
  | cons d ds ih =>
    intro p hp
    simp only [mapDates] at hp
    rcases List.mem_cons.mp hp with rfl | hp
    · exact ⟨d, List.mem_cons_self _ _, rfl⟩
    · rcases ih hp with ⟨d', hm, hq⟩
      exact ⟨d', List.mem_cons_of_mem _ hm, hq⟩

theorem commonStartFold_ge_start (phs : List PriceHistory) :
    ∀ (hs : List Holding) (cur : JStr), jstrLtB (commonStartFold phs cur hs) cur = false
  | [], cur => jstrLtB_irrefl cur
  | h :: hs, cur => by
    rw [commonStartFold_cons]
    cases hpm : priceMapGet phs h.symbol with
    | none => exact commonStartFold_ge_start phs hs cur
    | some ps =>
      cases ps with
      | nil => exact commonStartFold_ge_start phs hs cur
      | cons p pr =>
        simp only []
        by_cases hlt : jstrLtB cur p.date = true
        · rw [if_pos hlt]
          exact jstrLtB_neg_trans (jstrLtB_asymm hlt) (commonStartFold_ge_start phs hs p.date)
        · rw [if_neg hlt]
          exact commonStartFold_ge_start phs hs cur

theorem commonStartFold_ge_first (phs : List PriceHistory) :
    ∀ (hs : List Holding) (cur : JStr) (h : Holding) (p : PricePoint) (pr : List PricePoint),
      h ∈ hs → priceMapGet phs h.symbol = some (p :: pr) →
      jstrLtB (commonStartFold phs cur hs) p.date = false := by
  intro hs
  induction hs with
  | nil => intro cur h p pr hmem; exact absurd hmem (List.not_mem_nil h)
  | cons h0 hs ih =>
    intro cur h p pr hmem hpm
    rw [commonStartFold_cons]
    rcases List.mem_cons.mp hmem with rfl | hmem
    · rw [hpm]
      simp only []
      by_cases hlt : jstrLtB cur p.date = true
      · rw [if_pos hlt]
        exact commonStartFold_ge_start phs hs p.date
      · rw [if_neg hlt]
        have hlt' : jstrLtB cur p.date = false := by simpa using hlt
        exact jstrLtB_neg_trans hlt' (commonStartFold_ge_start phs hs cur)
    · cases hpm0 : priceMapGet phs h0.symbol with
      | none => exact ih cur h p pr hmem hpm
      | some ps =>
        cases ps with
        | nil => exact ih cur h p pr hmem hpm
        | cons q qr => exact ih _ h p pr hmem hpm

theorem commonStartFold_attained (phs : List PriceHistory) :
    ∀ (hs : List Holding) (cur : JStr),
      commonStartFold phs cur hs = cur ∨
        ∃ h ∈ hs, ∃ p pr, priceMapGet phs h.symbol = some (p :: pr) ∧
          commonStartFold phs cur hs = p.date := by
  intro hs
  induction hs with
  | nil => intro cur; exact Or.inl rfl
  | cons h0 hs ih =>
    intro cur
    rw [commonStartFold_cons]
    cases hpm : priceMapGet phs h0.symbol with
    | none =>
      rcases ih cur with h | ⟨h, hm, p, pr, hp1, hp2⟩
      · exact Or.inl h
      · exact Or.inr ⟨h, List.mem_cons_of_mem _ hm, p, pr, hp1, hp2⟩
    | some ps =>
      cases ps with
      | nil =>
        rcases ih cur with h | ⟨h, hm, p, pr, hp1, hp2⟩
        · exact Or.inl h
        · exact Or.inr ⟨h, List.mem_cons_of_mem _ hm, p, pr, hp1, hp2⟩
      | cons q qr =>
        simp only []
        by_cases hlt : jstrLtB cur q.date = true
        · rw [if_pos hlt]
          rcases ih q.date with h | ⟨h, hm, p, pr, hp1, hp2⟩
          · exact Or.inr ⟨h0, List.mem_cons_self _ _, q, qr, hpm, h⟩
          · exact Or.inr ⟨h, List.mem_cons_of_mem _ hm, p, pr, hp1, hp2⟩
        · rw [if_neg hlt]
          rcases ih cur with h | ⟨h, hm, p, pr, hp1, hp2⟩
          · exact Or.inl h
          · exact Or.inr ⟨h, List.mem_cons_of_mem _ hm, p, pr, hp1, hp2⟩

theorem dateAccum_no_contrib (phs : List PriceHistory) (firstDate d : JStr) :
    ∀ (hs : List Holding) (wv tw : ℚ),
      (∀ h ∈ hs, contributes phs firstDate d h = false) →
      dateAccum phs firstDate d wv tw hs = (wv, tw) := by
  intro hs
  induction hs with
  | nil => intro wv tw _; rfl
  | cons h0 hs ih =>
    intro wv tw hall
    have h0c := hall h0 (List.mem_cons_self _ _)
    have htail : ∀ h ∈ hs, contributes phs firstDate d h = false :=
      fun h hm => hall h (List.mem_cons_of_mem _ hm)
    rw [dateAccum_cons]
    unfold contributes at h0c
    cases hiv : initialValue phs firstDate h0.symbol with
    | none => exact ih wv tw htail
    | some ip =>
      simp only []
      cases hpm : priceMapGet phs h0.symbol with
      | none => exact ih wv tw htail
      | some ps =>
        simp only []
        cases hfp : findPrice d ps with
        | none => exact ih wv tw htail
        | some pp => simp [hiv, hpm, hfp] at h0c

/-! ## Claims C1-C3: the Performance Aggregator -/

/-- C1: for a non-empty holdings list and non-empty price-history list (with
at least one recorded date), the common start date is the latest of the first
recorded dates of all holdings whose symbol has a non-empty history, starting
from the minimum `d0` of the sorted date union; the emitted series covers
exactly the union dates that are `>=` that common start date. -/
theorem aggregator_common_start_date (holdings : List Holding) (phs : List PriceHistory)
    (d0 : JStr) (rest : List JStr) (hh : holdings ≠ []) (hp : phs ≠ [])
    (hd : sortedAllDates phs = d0 :: rest) :
    ∃ perf, calculateEtfPerformance holdings phs = .ok perf ∧
      perfDates perf = filterFromDate (commonStartFold phs d0 holdings) (d0 :: rest) ∧
      jstrLtB (commonStartFold phs d0 holdings) d0 = false ∧
      (∀ h ∈ holdings, ∀ p pr, priceMapGet phs h.symbol = some (p :: pr) →
        jstrLtB (commonStartFold phs d0 holdings) p.date = false) ∧
      (commonStartFold phs d0 holdings = d0 ∨
        ∃ h ∈ holdings, ∃ p pr, priceMapGet phs h.symbol = some (p :: pr) ∧
          commonStartFold phs d0 holdings = p.date) := by
  have hc := calcPerf_eq holdings phs d0 rest hh hp hd
  cases hfd : filterFromDate (commonStartFold phs d0 holdings) (d0 :: rest) with
  | nil =>
    rw [hfd] at hc
    exact ⟨[], hc, rfl, commonStartFold_ge_start phs holdings d0,
      fun h hm p pr hpm => commonStartFold_ge_first phs holdings d0 h p pr hm hpm,
      commonStartFold_attained phs holdings d0⟩
  | cons f0 fs =>
    rw [hfd] at hc
    exact ⟨mapDates holdings phs f0 (f0 :: fs), hc,
      perfDates_mapDates holdings phs f0 (f0 :: fs),
      commonStartFold_ge_start phs holdings d0,
      fun h hm p pr hpm => commonStartFold_ge_first phs holdings d0 h p pr hm hpm,
      commonStartFold_attained phs holdings d0⟩

/-- Aggregator inputs of the specification's common-start-date example:
holding A's prices start 2024-01-01, holding B's start 2024-01-03. -/
def exHoldingsA : List Holding :=
  [{ symbol := codes ("A"), name := codes ("A"), weight := 50 },
   { symbol := codes ("B"), name := codes ("B"), weight := 50 }]

def exPhsA : List PriceHistory :=
  [{ symbol := codes ("A"), prices :=
      [{ date := codes ("2024-01-01"), price := 10 },
       { date := codes ("2024-01-02"), price := 11 },
       { date := codes ("2024-01-03"), price := 12 }] },
   { symbol := codes ("B"), prices := [{ date := codes ("2024-01-03"), price := 20 }] }]

/-- Witness for C1: with holding A starting 2024-01-01 and holding B starting
2024-01-03, the emitted series covers exactly the single date 2024-01-03. -/
theorem aggregator_common_start_date_witness :
    ∃ perf, calculateEtfPerformance exHoldingsA exPhsA = .ok perf ∧
      perfDates perf = [codes ("2024-01-03")] := by
  obtain ⟨perf, h1, h2, -, -, -⟩ :=
    aggregator_common_start_date exHoldingsA exPhsA (codes ("2024-01-01"))
      [codes ("2024-01-02"), codes ("2024-01-03")] (by decide) (by decide) (by decide)
  refine ⟨perf, h1, ?_⟩
  rw [h2]
  decide

/-- C2: every emitted point's value is the weight-normalized sum of the
holdings' indexed prices over the holdings that contribute (recorded positive
initial price and a price point at that exact date), divided by the
accumulated weight when positive, 100 otherwise, rounded to 2 decimals; in
particular a date no holding contributes to gets exactly 100. -/
theorem aggregator_value_formula (holdings : List Holding) (phs : List PriceHistory)
    (d0 f0 : JStr) (rest fs : List JStr) (hh : holdings ≠ []) (hp : phs ≠ [])
    (hd : sortedAllDates phs = d0 :: rest)
    (hf : filterFromDate (commonStartFold phs d0 holdings) (d0 :: rest) = f0 :: fs) :
    ∃ perf, calculateEtfPerformance holdings phs = .ok perf ∧
      (∀ p ∈ perf, p.value =
        round2 (if 0 < (dateAccum phs f0 p.date 0 0 holdings).2 then
          (dateAccum phs f0 p.date 0 0 holdings).1 / (dateAccum phs f0 p.date 0 0 holdings).2
        else 100)) ∧
      (∀ p ∈ perf, (∀ h ∈ holdings, contributes phs f0 p.date h = false) → p.value = 100) := by
  have hc := calcPerf_eq holdings phs d0 rest hh hp hd
  rw [hf] at hc
  refine ⟨mapDates holdings phs f0 (f0 :: fs), hc, ?_, ?_⟩
  · intro p hp'
    rcases mem_mapDates hp' with ⟨d, -, rfl⟩
    rfl
  · intro p hp' hnone
    rcases mem_mapDates hp' with ⟨d, -, rfl⟩
    show dateValue holdings phs f0 d = 100
    unfold dateValue
    rw [dateAccum_no_contrib phs f0 d holdings 0 0 (by simpa using hnone)]
    norm_num [round2]

def exHoldingsB : List Holding :=
  [{ symbol := codes ("A"), name := codes ("A"), weight := 50 }]

/-- Histories for the C2 witness: the only holding A has no price on
2024-01-02, a date contributed to the union by the unheld symbol B. -/
def exPhsB : List PriceHistory :=
  [{ symbol := codes ("A"), prices :=
      [{ date := codes ("2024-01-01"), price := 10 },
       { date := codes ("2024-01-03"), price := 12 }] },
   { symbol := codes ("B"), prices :=
      [{ date := codes ("2024-01-01"), price := 5 },
       { date := codes ("2024-01-02"), price := 6 },
       { date := codes ("2024-01-03"), price := 7 }] }]

/-- Witness for C2, at inputs where one filtered date has no contributing
holding. -/
theorem aggregator_value_formula_witness :
    ∃ perf, calculateEtfPerformance exHoldingsB exPhsB = .ok perf ∧
      (∀ p ∈ perf, p.value =
        round2 (if 0 < (dateAccum exPhsB (codes ("2024-01-01")) p.date 0 0 exHoldingsB).2 then
          (dateAccum exPhsB (codes ("2024-01-01")) p.date 0 0 exHoldingsB).1 /
            (dateAccum exPhsB (codes ("2024-01-01")) p.date 0 0 exHoldingsB).2
        else 100)) ∧
      (∀ p ∈ perf, (∀ h ∈ exHoldingsB,
        contributes exPhsB (codes ("2024-01-01")) p.date h = false) → p.value = 100) :=
  aggregator_value_formula exHoldingsB exPhsB (codes ("2024-01-01")) (codes ("2024-01-01"))
    [codes ("2024-01-02"), codes ("2024-01-03")] [codes ("2024-01-02"), codes ("2024-01-03")]
    (by decide) (by decide) (by decide) (by decide)

/-- C3: with an empty price-history list or an empty holdings list the
aggregator returns `{etfPerformance: []}` — the `ok` constructor, so no
`error` field; the embedding is total, so no exception is possible. -/
theorem aggregator_empty_guard (holdings : List Holding) (phs : List PriceHistory)
    (h : phs = [] ∨ holdings = []) : calculateEtfPerformance holdings phs = .ok [] := by
  unfold calculateEtfPerformance
  rw [if_pos h]

/-- Witness for C3: empty price histories with a non-empty holdings list. -/
theorem aggregator_empty_guard_witness :
    calculateEtfPerformance
      [{ symbol := codes ("A"), name := codes ("A"), weight := 100 }] [] = .ok [] :=
  aggregator_empty_guard _ _ (Or.inl rfl)

/-! ## Rounding and weight-sum lemmas -/

theorem round2_sub_le (q : ℚ) : |round2 q - q| ≤ 1 / 200 := by
  have h1 := Int.floor_le (q * 100 + 1 / 2)
  have h2 := Int.lt_floor_add_one (q * 100 + 1 / 2)
  rw [round2, abs_le]
  constructor <;> linarith

theorem abs_sum_round2_sub : ∀ l : List ℚ,
    |(l.map round2).sum - l.sum| ≤ (l.length : ℚ) / 200
  | [] => by simp
  | x :: xs => by
    simp only [List.map_cons, List.sum_cons, List.length_cons]
    have h1 := round2_sub_le x
    have h2 := abs_sum_round2_sub xs
    have h3 : round2 x + (xs.map round2).sum - (x + xs.sum) =
        (round2 x - x) + ((xs.map round2).sum - xs.sum) := by ring
    rw [h3]
    refine le_trans (abs_add _ _) ?_
    push_cast
    linarith

theorem totalWeightFrom_eq : ∀ (l : List Holding) (acc : ℚ),
    totalWeightFrom acc l = acc + (l.map Holding.weight).sum
  | [], acc => by simp
  | h :: t, acc => by
    rw [totalWeightFrom_cons, totalWeightFrom_eq t (acc + h.weight)]
    simp only [List.map_cons, List.sum_cons]
    ring

theorem totalWeight_eq_sum (l : List Holding) :
    totalWeight l = (l.map Holding.weight).sum := by
  rw [totalWeight, totalWeightFrom_eq]
  simp

/-! ## Claims C4-C5: the Weight Normalizer -/

/-- C4 (amended): for holdings produced by the Holdings Generator with a
positive total parsed weight, the returned weights sum to 100 within
`n * 0.005`, where `n` is the number of holdings — each weight is rounded to
2 decimal places, contributing up to half a cent of error. -/
theorem holdings_weight_sum_epsilon (query llmText : JStr)
    (hT : 0 < totalWeight (parseHoldings llmText)) :
    |totalWeight ((generateEtfHoldings query llmText).holdings) - 100| ≤
      ((parseHoldings llmText).length : ℚ) / 200 := by
  set hs := parseHoldings llmText with hhs
  have hne : hs ≠ [] := by
    intro h
    rw [h] at hT
    simp [totalWeight] at hT
  have hgen : (generateEtfHoldings query llmText).holdings = normalizeHoldings hs := by
    unfold generateEtfHoldings
    rw [← hhs, if_neg hne]
  have hnorm : normalizeHoldings hs =
      hs.map (fun h => { h with weight := round2 (h.weight / totalWeight hs * 100) }) := by
    unfold normalizeHoldings
    rw [if_pos hT]
  rw [hgen, hnorm, totalWeight_eq_sum, List.map_map]
  have hcomp : (Holding.weight ∘ fun h : Holding =>
      { h with weight := round2 (h.weight / totalWeight hs * 100) }) =
      fun h : Holding => round2 (h.weight / totalWeight hs * 100) := rfl
  rw [hcomp]
  have hmm : hs.map (fun h : Holding => round2 (h.weight / totalWeight hs * 100)) =
      (hs.map (fun h : Holding => h.weight / totalWeight hs * 100)).map round2 := by
    rw [List.map_map]
    rfl
  have hsum : (hs.map (fun h : Holding => h.weight / totalWeight hs * 100)).sum = 100 := by
    have hfun : (fun h : Holding => h.weight / totalWeight hs * 100) =
        fun h : Holding => h.weight * (100 / totalWeight hs) := by
      funext h
      ring
    rw [hfun, List.sum_map_mul_right, ← totalWeight_eq_sum]
    field_simp
  have hlen : (hs.map (fun h : Holding => h.weight / totalWeight hs * 100)).length = hs.length :=
    List.length_map _ _
  calc |(hs.map (fun h : Holding => round2 (h.weight / totalWeight hs * 100))).sum - 100|
      = |((hs.map (fun h : Holding => h.weight / totalWeight hs * 100)).map round2).sum -
          (hs.map (fun h : Holding => h.weight / totalWeight hs * 100)).sum| := by
        rw [hmm, hsum]
    _ ≤ ((hs.map (fun h : Holding => h.weight / totalWeight hs * 100)).length : ℚ) / 200 :=
        abs_sum_round2_sub _
    _ = (hs.length : ℚ) / 200 := by rw [hlen]

/-- Counterexample for C4 as frozen: with seven equally weighted parsed
holdings, each normalized weight rounds `100/7` to `14.29`, and the seven
weights sum to `100.03`, which is not within the claimed epsilon of `0.01`
of 100, although the holdings set is non-empty and the total parsed weight
(7) was positive. -/
theorem holdings_weight_sum_epsilon_cex :
    0 < totalWeight (parseHoldings
      (codes ("A: 1%\nB: 1%\nC: 1%\nD: 1%\nE: 1%\nF: 1%\nG: 1%"))) ∧
    (generateEtfHoldings (codes ("tech"))
      (codes ("A: 1%\nB: 1%\nC: 1%\nD: 1%\nE: 1%\nF: 1%\nG: 1%"))).holdings ≠ [] ∧
    ¬ |totalWeight ((generateEtfHoldings (codes ("tech"))
      (codes ("A: 1%\nB: 1%\nC: 1%\nD: 1%\nE: 1%\nF: 1%\nG: 1%"))).holdings) - 100| ≤
        1 / 100 := by
  have hc : codes ("A: 1%\nB: 1%\nC: 1%\nD: 1%\nE: 1%\nF: 1%\nG: 1%") =
      [65, 58, 32, 49, 37, 10, 66, 58, 32, 49, 37, 10, 67, 58, 32, 49, 37, 10,
       68, 58, 32, 49, 37, 10, 69, 58, 32, 49, 37, 10, 70, 58, 32, 49, 37, 10,
       71, 58, 32, 49, 37] := rfl
  have hparse : parseHoldings
      (codes ("A: 1%\nB: 1%\nC: 1%\nD: 1%\nE: 1%\nF: 1%\nG: 1%")) =
      [{ symbol := [65], name := [65], weight := 1 },
       { symbol := [66], name := [66], weight := 1 },
       { symbol := [67], name := [67], weight := 1 },
       { symbol := [68], name := [68], weight := 1 },
       { symbol := [69], name := [69], weight := 1 },
       { symbol := [70], name := [70], weight := 1 },
       { symbol := [71], name := [71], weight := 1 }] := by
    rw [hc]
    norm_num [parseHoldings, jsTrim, parseHoldingLine, matchHoldingAt, parseFloatDecimal,
      parseUnsignedDec, digitsVal, jsToUpper, isSymbolCode, isDigitCode, isSpaceCode]
  have hne : parseHoldings
      (codes ("A: 1%\nB: 1%\nC: 1%\nD: 1%\nE: 1%\nF: 1%\nG: 1%")) ≠ [] := by
    rw [hparse]
    simp
  have hgen : (generateEtfHoldings (codes ("tech"))
      (codes ("A: 1%\nB: 1%\nC: 1%\nD: 1%\nE: 1%\nF: 1%\nG: 1%"))).holdings =
      normalizeHoldings (parseHoldings
        (codes ("A: 1%\nB: 1%\nC: 1%\nD: 1%\nE: 1%\nF: 1%\nG: 1%"))) := by
    unfold generateEtfHoldings
    rw [if_neg hne]
  have hnorm : normalizeHoldings (parseHoldings
      (codes ("A: 1%\nB: 1%\nC: 1%\nD: 1%\nE: 1%\nF: 1%\nG: 1%"))) =
      [{ symbol := [65], name := [65], weight := 1429 / 100 },
       { symbol := [66], name := [66], weight := 1429 / 100 },
       { symbol := [67], name := [67], weight := 1429 / 100 },
       { symbol := [68], name := [68], weight := 1429 / 100 },
       { symbol := [69], name := [69], weight := 1429 / 100 },
       { symbol := [70], name := [70], weight := 1429 / 100 },
       { symbol := [71], name := [71], weight := 1429 / 100 }] := by
    rw [hparse]
    norm_num [normalizeHoldings, totalWeight, round2]
  refine ⟨?_, ?_, ?_⟩
  · rw [hparse]
    norm_num [totalWeight]
  · rw [hgen, hnorm]
    simp
  · rw [hgen, hnorm]
    intro habs
    rw [abs_le] at habs
    have h2 := habs.2
    norm_num [totalWeight] at h2

/-- Witness for C4 (amended), at a two-line completion with weights 1 and 2. -/
theorem holdings_weight_sum_epsilon_witness :
    |totalWeight ((generateEtfHoldings (codes ("tech"))
        (codes ("A: 1%\nB: 2%"))).holdings) - 100| ≤
      ((parseHoldings (codes ("A: 1%\nB: 2%"))).length : ℚ) / 200 :=
  holdings_weight_sum_epsilon _ _ (by
    have hc : codes ("A: 1%\nB: 2%") = [65, 58, 32, 49, 37, 10, 66, 58, 32, 50, 37] := rfl
    rw [hc]
    norm_num [parseHoldings, jsTrim, parseHoldingLine, matchHoldingAt, parseFloatDecimal,
      parseUnsignedDec, digitsVal, jsToUpper, isSymbolCode, isDigitCode, isSpaceCode,
      totalWeight])

/-- The specification's normalizer example: weights 15, 10 and 20.5. -/
def exNormList : List Holding :=
  [{ symbol := codes ("AAPL"), name := codes ("AAPL"), weight := 15 },
   { symbol := codes ("MSFT"), name := codes ("MSFT"), weight := 10 },
   { symbol := codes ("GOOG"), name := codes ("GOOG"), weight := 41 / 2 }]

/-- C5: when the total weight is positive each weight is rescaled to
`weight/total*100` rounded to 2 decimals with ordering preserved (the map),
when the total is zero the holdings are returned unchanged, and the weights
`[15, 10, 20.5]` normalize to `[32.97, 21.98, 45.05]`. -/
theorem normalizer_spec :
    (∀ hs : List Holding, 0 < totalWeight hs →
      normalizeHoldings hs =
        hs.map (fun h => { h with weight := round2 (h.weight / totalWeight hs * 100) })) ∧
    (∀ hs : List Holding, totalWeight hs = 0 → normalizeHoldings hs = hs) ∧
    (normalizeHoldings exNormList).map Holding.weight = [3297 / 100, 2198 / 100, 4505 / 100] := by
  refine ⟨?_, ?_, ?_⟩
  · intro hs h
    unfold normalizeHoldings
    rw [if_pos h]
  · intro hs h
    unfold normalizeHoldings
    rw [if_neg (by rw [h]; exact lt_irrefl 0)]
  · norm_num [normalizeHoldings, exNormList, totalWeight, round2]

/-- Witness for C5, instantiating the positive-total branch at the example
list. -/
theorem normalizer_spec_witness :
    normalizeHoldings exNormList =
      exNormList.map
        (fun h => { h with weight := round2 (h.weight / totalWeight exNormList * 100) }) :=
  normalizer_spec.1 exNormList (by norm_num [exNormList, totalWeight])

/-! ## Claims C6, C9, C10: the Response Parser and Holdings Generator -/

theorem collectHoldings_nil_of_none : ∀ lines : List JStr,
    (∀ line ∈ lines, parseHoldingLine line = none) → collectHoldings lines = []
  | [], _ => rfl
  | l :: ls, h => by
    simp only [collectHoldings]
    rw [h l (List.mem_cons_self _ _)]
    exact collectHoldings_nil_of_none ls (fun x hx => h x (List.mem_cons_of_mem _ hx))

/-- C6: the parser extracts, in source line order, one (symbol, weight) pair
per line matched by the token pattern, upper-casing the symbol and silently
skipping non-matching lines — on the specification's example input it yields
exactly AAPL 15, MSFT 10, GOOG 20.5 — and when no line matches, the output is
empty. -/
theorem parser_spec :
    ((parseHoldings (codes ("AAPL: 15%\nMSFT: 10\nbogus line\nGOOG: 20.5%"))).map
        (fun h => (h.symbol, h.weight)) =
      [(codes ("AAPL"), (15 : ℚ)), (codes ("MSFT"), 10), (codes ("GOOG"), 41 / 2)]) ∧
    ∀ text : JStr, (∀ line ∈ splitOnNl (jsTrim text), parseHoldingLine line = none) →
      parseHoldings text = [] := by
  constructor
  · have hc : codes ("AAPL: 15%\nMSFT: 10\nbogus line\nGOOG: 20.5%") =
        [65, 65, 80, 76, 58, 32, 49, 53, 37, 10, 77, 83, 70, 84, 58, 32, 49, 48, 10,
         98, 111, 103, 117, 115, 32, 108, 105, 110, 101, 10, 71, 79, 79, 71, 58, 32,
         50, 48, 46, 53, 37] := rfl
    have h1 : codes ("AAPL") = [65, 65, 80, 76] := rfl
    have h2 : codes ("MSFT") = [77, 83, 70, 84] := rfl
    have h3 : codes ("GOOG") = [71, 79, 79, 71] := rfl
    rw [hc, h1, h2, h3]
    norm_num [parseHoldings, jsTrim, parseHoldingLine, matchHoldingAt, parseFloatDecimal,
      parseUnsignedDec, digitsVal, jsToUpper, isSymbolCode, isDigitCode, isSpaceCode]
  · intro text h
    exact collectHoldings_nil_of_none _ h

/-- Witness for C6: a text none of whose lines matches parses to the empty
list. -/
theorem parser_spec_witness :
    parseHoldings (codes ("no tickers here")) = [] :=
  parser_spec.2 (codes ("no tickers here")) (by decide)

/-- C9: when the parser extracts zero pairs, the Holdings Generator returns
an empty holdings list with the generated name suffixed `"-EMPTY"`; the
embedding is total, so no exception is possible. -/
theorem generator_empty_result (query llmText : JStr)
    (h : parseHoldings llmText = []) :
    generateEtfHoldings query llmText =
      { holdings := [], etfName := generateEtfName query ++ codes ("-EMPTY") } := by
  unfold generateEtfHoldings
  rw [if_pos h]

/-- Witness for C9: an unparsable completion under the pharma query yields
the empty soft-failure with the deterministic name plus suffix. -/
theorem generator_empty_result_witness :
    generateEtfHoldings (codes ("non-US pharma companies")) (codes ("hello world")) =
      { holdings := [], etfName := codes ("NON-US-PHARMA ETF-EMPTY") } := by
  rw [generator_empty_result (codes ("non-US pharma companies")) (codes ("hello world"))
    (by decide)]
  decide

/-- C10: a line that does not consist solely of the `SYMBOL: WEIGHT` form —
the numbered-list item `"1. AAPL: 15%"` — still yields the pair (AAPL, 15),
because the token pattern is matched anywhere within the line: the anchored
attempt at the start of the line fails while the unanchored scan succeeds. -/
theorem parser_unanchored_match :
    parseHoldingLine (codes ("1. AAPL: 15%")) =
      some { symbol := codes ("AAPL"), name := codes ("AAPL"), weight := 15 } ∧
    matchHoldingAt (jsTrim (codes ("1. AAPL: 15%"))) = none := by
  constructor
  · have hc : codes ("1. AAPL: 15%") = [49, 46, 32, 65, 65, 80, 76, 58, 32, 49, 53, 37] := rfl
    have h1 : codes ("AAPL") = [65, 65, 80, 76] := rfl
    rw [hc, h1]
    norm_num [parseHoldingLine, jsTrim, matchHoldingAt, parseFloatDecimal, parseUnsignedDec,
      digitsVal, jsToUpper, isSymbolCode, isDigitCode, isSpaceCode]
  · decide

/-! ## Claims C7-C8: the Price History Adapter -/

/-- C7 (amended): the adapter never raises; it returns an empty mapping when
the input is falsy or not of object type, and otherwise — when the
time-series block is missing, falsy, or not of object type — a single-entry
mapping keying the metadata ticker (`"UNKNOWN"` when not determinable) to an
empty sequence. -/
theorem adapter_guard (data : JValue) :
    ((jsTruthy data = false ∨ isTypeofObject data = false) →
      parseAlphaVantageResponse data = []) ∧
    (jsTruthy data = true → isTypeofObject data = true →
      ∀ ts, getProp data (codes ("Time Series (Daily)")) = some ts →
        (jsTruthy ts = false ∨ isTypeofObject ts = false) →
        parseAlphaVantageResponse data = [(tickerOf data, [])]) ∧
    (jsTruthy data = true → isTypeofObject data = true →
      getProp data (codes ("Time Series (Daily)")) = none →
      parseAlphaVantageResponse data = [(tickerOf data, [])]) := by
  refine ⟨?_, ?_, ?_⟩
  · intro h
    unfold parseAlphaVantageResponse
    rw [if_pos h]
  · intro h1 h2 ts hts hbad
    unfold parseAlphaVantageResponse
    rw [if_neg (by simp [h1, h2]), hts]
    simp only []
    rw [if_pos hbad]
  · intro h1 h2 hts
    unfold parseAlphaVantageResponse
    rw [if_neg (by simp [h1, h2]), hts]

/-- Counterexample for C7 as frozen: an object whose time-series block is a
truthy non-object and which carries no metadata — so the symbol is not
determinable — yields the single-entry mapping `{UNKNOWN: []}`, not the empty
mapping the claim requires for the non-determinable case. -/
theorem adapter_guard_cex :
    parseAlphaVantageResponse
        (JValue.jobj [(codes ("Time Series (Daily)"), JValue.jstr (codes ("oops")))]) =
      [(codes ("UNKNOWN"), [])] ∧
    [(codes ("UNKNOWN"), ([] : List DailyPrice))] ≠ [] := by
  constructor
  · decide
  · decide

/-- Witness for C7 (amended): a payload with metadata symbol IBM and a null
time-series block keys IBM to the empty sequence. -/
theorem adapter_guard_witness :
    parseAlphaVantageResponse
        (JValue.jobj
          [(codes ("Meta Data"),
            JValue.jobj [(codes ("2. Symbol"), JValue.jstr (codes ("IBM")))]),
           (codes ("Time Series (Daily)"), JValue.jnull)]) =
      [(codes ("IBM"), [])] := by
  have h :=
    (adapter_guard
      (JValue.jobj
        [(codes ("Meta Data"),
          JValue.jobj [(codes ("2. Symbol"), JValue.jstr (codes ("IBM")))]),
         (codes ("Time Series (Daily)"), JValue.jnull)])).2.1
      rfl rfl JValue.jnull rfl (Or.inl rfl)
  rw [h]
  decide

theorem buildPrices_eq : ∀ kvs : List (JStr × JValue),
    buildPrices kvs = kvs.map (fun kv => mkDailyPrice kv.1 kv.2)
  | [] => rfl
  | kv :: rest => by simp [buildPrices_eq rest]

/-- C8: for an object input whose time-series block is an object, the adapter
returns a single-entry mapping from the metadata ticker to a sequence holding
one parsed record per date key (a permutation of the block's entries), sorted
ascending by date string. -/
theorem adapter_parse_sorted (data : JValue) (fields : List (JStr × JValue))
    (h1 : jsTruthy data = true) (h2 : isTypeofObject data = true)
    (hts : getProp data (codes ("Time Series (Daily)")) = some (JValue.jobj fields)) :
    ∃ recs : List DailyPrice,
      parseAlphaVantageResponse data = [(tickerOf data, recs)] ∧
      List.Perm recs (fields.map (fun kv => mkDailyPrice kv.1 kv.2)) ∧
      recs.Pairwise (fun a b => jstrLtB b.date a.date = false) := by
  refine ⟨sortByB dailyLtB (buildPrices fields), ?_, ?_, ?_⟩
  · unfold parseAlphaVantageResponse
    rw [if_neg (by simp [h1, h2]), hts]
    simp only []
    rw [if_neg (by simp [jsTruthy, isTypeofObject])]
    rfl
  · exact (buildPrices_eq fields) ▸ sortByB_perm dailyLtB (buildPrices fields)
  · exact @sortByB_pairwise _ dailyLtB (fun a b h => jstrLtB_asymm h)
      (fun a b c hab hbc => jstrLtB_trans hab hbc) (buildPrices fields)

/-- The specification's round-trip payload: meta symbol IBM and one date
entry with string-encoded numeric fields. -/
def ibmPayload : JValue :=
  JValue.jobj
    [(codes ("Meta Data"), JValue.jobj
        [(codes ("2. Symbol"), JValue.jstr (codes ("IBM")))]),
     (codes ("Time Series (Daily)"), JValue.jobj
        [(codes ("2025-03-11"), JValue.jobj
            [(codes ("1. open"), JValue.jstr (codes ("94.9800"))),
             (codes ("2. high"), JValue.jstr (codes ("95.3800"))),
             (codes ("3. low"), JValue.jstr (codes ("93.5800"))),
             (codes ("4. close"), JValue.jstr (codes ("94.7300"))),
             (codes ("5. volume"), JValue.jstr (codes ("21734793")))])])]

/-- Witness for C8: the IBM payload round-trips to `{IBM: [one record]}` with
every field numerically parsed from its string encoding. -/
theorem adapter_parse_sorted_witness :
    parseAlphaVantageResponse ibmPayload =
      [(codes ("IBM"),
        [{ date := codes ("2025-03-11"), open' := some (9498 / 100),
           high := some (9538 / 100), low := some (9358 / 100),
           close := some (9473 / 100), volume := some 21734793 }])] := by
  obtain ⟨recs, hEq, hPerm, -⟩ := adapter_parse_sorted ibmPayload _ rfl rfl rfl
  have hr : recs =
      [mkDailyPrice (codes ("2025-03-11"))
        (JValue.jobj
          [(codes ("1. open"), JValue.jstr (codes ("94.9800"))),
           (codes ("2. high"), JValue.jstr (codes ("95.3800"))),
           (codes ("3. low"), JValue.jstr (codes ("93.5800"))),
           (codes ("4. close"), JValue.jstr (codes ("94.7300"))),
           (codes ("5. volume"), JValue.jstr (codes ("21734793")))])] := by
    simpa [List.perm_singleton] using hPerm
  have hmk : mkDailyPrice (codes ("2025-03-11"))
      (JValue.jobj
        [(codes ("1. open"), JValue.jstr (codes ("94.9800"))),
         (codes ("2. high"), JValue.jstr (codes ("95.3800"))),
         (codes ("3. low"), JValue.jstr (codes ("93.5800"))),
         (codes ("4. close"), JValue.jstr (codes ("94.7300"))),
         (codes ("5. volume"), JValue.jstr (codes ("21734793")))]) =
      { date := codes ("2025-03-11"),
        open' := parseFloatDecimal (codes ("94.9800")),
        high := parseFloatDecimal (codes ("95.3800")),
        low := parseFloatDecimal (codes ("93.5800")),
        close := parseFloatDecimal (codes ("94.7300")),
        volume := parseFloatDecimal (codes ("21734793")) } := rfl
  have ho : parseFloatDecimal (codes ("94.9800")) = some (9498 / 100) := by
    have hc : codes ("94.9800") = [57, 52, 46, 57, 56, 48, 48] := rfl
    rw [hc]
    norm_num [parseFloatDecimal, parseUnsignedDec, digitsVal, isDigitCode, isSpaceCode]
  have hhg : parseFloatDecimal (codes ("95.3800")) = some (9538 / 100) := by
    have hc : codes ("95.3800") = [57, 53, 46, 51, 56, 48, 48] := rfl
    rw [hc]
    norm_num [parseFloatDecimal, parseUnsignedDec, digitsVal, isDigitCode, isSpaceCode]
  have hlw : parseFloatDecimal (codes ("93.5800")) = some (9358 / 100) := by
    have hc : codes ("93.5800") = [57, 51, 46, 53, 56, 48, 48] := rfl
    rw [hc]
    norm_num [parseFloatDecimal, parseUnsignedDec, digitsVal, isDigitCode, isSpaceCode]
  have hcl : parseFloatDecimal (codes ("94.7300")) = some (9473 / 100) := by
    have hc : codes ("94.7300") = [57, 52, 46, 55, 51, 48, 48] := rfl
    rw [hc]
    norm_num [parseFloatDecimal, parseUnsignedDec, digitsVal, isDigitCode, isSpaceCode]
  have hvv : parseFloatDecimal (codes ("21734793")) = some 21734793 := by
    have hc : codes ("21734793") = [50, 49, 55, 51, 52, 55, 57, 51] := rfl
    rw [hc]
    norm_num [parseFloatDecimal, parseUnsignedDec, digitsVal, isDigitCode, isSpaceCode]
  have ht : tickerOf ibmPayload = codes ("IBM") := rfl
  rw [hEq, hr, hmk, ho, hhg, hlw, hcl, hvv, ht]
